import Mathlib

/-!
# Verification of the t-chain node core

Shallow embedding of the two Rust source files of the repository:

* `src/node/src/main.rs` — the node process: `Transaction`, `Block`,
  `Blockchain` (the ledger), `TransactionPool`, the periodic mining task,
  and the command/event loop that handles local stdin commands and
  gossipsub network messages.
* `src/cli/src/main.rs` — the CLI entry point built on `clap`.

The embedding drops the `tokio::sync::Mutex` wrappers: every pool/ledger
operation is atomic under the lock in the source, so here each operation
is a pure function on the container's contents, and multi-operation
sequences (a mining cycle, a command handling) are modelled as explicit
compositions of those operations.  `u64` arithmetic is modelled on `Nat`
with an explicit `% 2 ^ 64` where the source performs arithmetic
(`last_mined_block_number + 1` in `Block::new`).
-/

/-- The modulus of Rust's `u64`. -/
def u64Mod : Nat := 2 ^ 64

/-- `struct Transaction { from: u64, to: u64 }` from `src/node/src/main.rs`. -/
structure Transaction where
  «from» : Nat
  «to» : Nat
deriving DecidableEq, Repr

/-- `Transaction::new()`: `Self { from: 0x000, to: 0x123 }`. -/
def Transaction.new : Transaction :=
  { «from» := 0x000, «to» := 0x123 }

/-- `struct Block { number: u64, transactions: Vec<Transaction> }`. -/
structure Block where
  number : Nat
  transactions : List Transaction
deriving DecidableEq, Repr

/-- `Block::GENESIS_BLOCK_NUMBER = 1`. -/
def Block.GENESIS_BLOCK_NUMBER : Nat := 1

/-- `Block::new(last_mined_block_number, transactions)`:
`number = last_mined_block_number.and_then(|n| Some(n + 1)).unwrap_or(GENESIS_BLOCK_NUMBER)`,
`transactions = transactions.clone()`.  The `+ 1` is `u64` addition, hence the
`% u64Mod`. -/
def Block.new (last_mined_block_number : Option Nat)
    (transactions : List Transaction) : Block :=
  { number :=
      (last_mined_block_number.bind
        (fun last_mined_block_number => some ((last_mined_block_number + 1) % u64Mod))).getD
        Block.GENESIS_BLOCK_NUMBER
    transactions := transactions }

/-- The ledger contents: `Blockchain { blocks: Mutex<Vec<Block>> }` with the
lock erased — operations below act on the `Vec<Block>` directly. -/
abbrev Ledger := List Block

/-- `Blockchain::get_last_mined_block`: `blocks.last().cloned()`. -/
def Blockchain.get_last_mined_block (blocks : Ledger) : Option Block :=
  blocks.getLast?

/-- `Blockchain::get_last_mined_block_number`:
`get_last_mined_block().and_then(|block| Some(block.number))`. -/
def Blockchain.get_last_mined_block_number (blocks : Ledger) : Option Nat :=
  (Blockchain.get_last_mined_block blocks).bind (fun block => some block.number)

/-- `Blockchain::mine_naively(new_block)`: `blocks.push(new_block)`. -/
def Blockchain.mine_naively (blocks : Ledger) (new_block : Block) : Ledger :=
  blocks ++ [new_block]

/-- The pool contents: `TransactionPool { transactions: Mutex<Vec<Transaction>> }`
with the lock erased. -/
abbrev Pool := List Transaction

/-- `TransactionPool::get_transactions`: `transactions.lock().to_vec()` (a
point-in-time copy of the contents). -/
def TransactionPool.get_transactions (transactions : Pool) : List Transaction :=
  transactions

/-- `TransactionPool::has_pending_transactions`:
`get_transactions().len() > 0`. -/
def TransactionPool.has_pending_transactions (transactions : Pool) : Bool :=
  (TransactionPool.get_transactions transactions).length > 0

/-- `TransactionPool::add(transaction)`: `transactions.push(transaction)`. -/
def TransactionPool.add (transactions : Pool) (transaction : Transaction) : Pool :=
  transactions ++ [transaction]

/-- `TransactionPool::clear()`: `*transactions = Vec::new()`. -/
def TransactionPool.clear (_transactions : Pool) : Pool :=
  []

/-- The shared mutable state of the node process: the `Blockchain` and the
`TransactionPool` behind their `Arc`s. -/
structure NodeState where
  blockchain : Ledger
  pool : Pool
deriving DecidableEq, Repr

/-- The state at process start: both containers are `Vec::new()`. -/
def NodeState.init : NodeState :=
  { blockchain := [], pool := [] }

/-- One iteration of the mining task's loop body (`main.rs` lines 161-174),
run at each interval tick: read the last mined block number, and if the pool
has pending transactions, build a new block from a pool snapshot, append it,
and clear the pool.  Otherwise nothing happens in this cycle. -/
def mine_cycle (s : NodeState) : NodeState :=
  let last_mined_block_number := Blockchain.get_last_mined_block_number s.blockchain
  if TransactionPool.has_pending_transactions s.pool then
    let new_block := Block.new last_mined_block_number
      (TransactionPool.get_transactions s.pool)
    { blockchain := Blockchain.mine_naively s.blockchain new_block
      pool := TransactionPool.clear s.pool }
  else
    s

/-- The outcome of `gossipsub.publish`, determined by the network environment:
`Ok(MessageId)` or `Err(PublishError)` (the error rendered as a string). -/
abbrev PublishResult := Except String Nat

/-- Observable side effects of handling one command in the event loop:
how many times the pool was appended to, how many publish calls were made to
the gossipsub transport, and which diagnostics were printed. -/
structure CommandEffects where
  pool_appends : Nat
  publish_attempts : Nat
  invalid_diagnostic : Bool
  publish_warning : Bool
  printed_blockchain : Bool
deriving DecidableEq, Repr

/-- Handling of one line of local stdin input (`main.rs` lines 186-201):
`"ADD_TRANSACTION"` appends `Transaction::new()` to the pool and then attempts
one `publish` of the literal line (a failure only prints a warning);
`"FETCH_BLOCKCHAIN"` prints the blockchain; anything else prints
`"Invalid command"`.  `pub_result` is the environment-chosen outcome of the
publish call. -/
def handle_local_line (line : String) (pub_result : PublishResult)
    (s : NodeState) : NodeState × CommandEffects :=
  if line = "ADD_TRANSACTION" then
    ({ s with pool := TransactionPool.add s.pool Transaction.new },
     { pool_appends := 1
       publish_attempts := 1
       invalid_diagnostic := false
       publish_warning := match pub_result with
         | Except.error _ => true
         | Except.ok _ => false
       printed_blockchain := false })
  else if line = "FETCH_BLOCKCHAIN" then
    (s,
     { pool_appends := 0
       publish_attempts := 0
       invalid_diagnostic := false
       publish_warning := false
       printed_blockchain := true })
  else
    (s,
     { pool_appends := 0
       publish_attempts := 0
       invalid_diagnostic := true
       publish_warning := false
       printed_blockchain := false })

/-- Handling of one inbound gossipsub message (`main.rs` lines 215-224), with
`data` the lossily UTF-8 decoded payload: `"ADD_TRANSACTION"` appends
`Transaction::new()` to the pool (no re-publish); anything else — including
`"FETCH_BLOCKCHAIN"` — prints `"Invalid NODE command"`. -/
def handle_network_message (data : String) (s : NodeState) :
    NodeState × CommandEffects :=
  if data = "ADD_TRANSACTION" then
    ({ s with pool := TransactionPool.add s.pool Transaction.new },
     { pool_appends := 1
       publish_attempts := 0
       invalid_diagnostic := false
       publish_warning := false
       printed_blockchain := false })
  else
    (s,
     { pool_appends := 0
       publish_attempts := 0
       invalid_diagnostic := true
       publish_warning := false
       printed_blockchain := false })

/-- Reachable node states: starting from `NodeState.init`, any interleaving of
local command handlings (with any publish outcome), network message handlings,
and mining-task cycles.  The mDNS discovered/expired branches of the event
loop touch only the transport's peer set, never `NodeState`, so they are
identity steps and are omitted. -/
inductive Reach : NodeState → Prop where
  | init : Reach NodeState.init
  | local_cmd (line : String) (pub_result : PublishResult) (s : NodeState) :
      Reach s → Reach (handle_local_line line pub_result s).1
  | network_cmd (data : String) (s : NodeState) :
      Reach s → Reach (handle_network_message data s).1
  | miner_tick (s : NodeState) :
      Reach s → Reach (mine_cycle s)

/-- The block numbers of a ledger, in ledger order. -/
def block_numbers (blocks : Ledger) : List Nat :=
  blocks.map Block.number

/-- The spec's ledger invariant: the block numbers are exactly
`1, 2, ..., length` — a strictly increasing sequence with no gaps starting at
the genesis number 1. -/
def numbers_sequential (blocks : Ledger) : Prop :=
  block_numbers blocks = (List.range blocks.length).map (fun i => i + 1)

/-- One full add-then-drain round: a network `ADD_TRANSACTION` followed by a
miner tick. -/
def add_then_mine (s : NodeState) : NodeState :=
  mine_cycle (handle_network_message "ADD_TRANSACTION" s).1

/-- The node state after `k` add-then-drain rounds from the initial state. -/
def drain_cycles : Nat → NodeState
  | 0 => NodeState.init
  | k + 1 => add_then_mine (drain_cycles k)

/-- The nested subcommand registered under `start` in `src/cli/src/main.rs`:
only `node`.  `clap`'s `get_matches` itself rejects any unregistered
subcommand (exiting with a usage error before the `match` runs), so a parse
result reaching the `match` names only registered subcommands. -/
inductive StartSubcommand where
  | node
deriving DecidableEq, Repr

/-- The shape of `matches.subcommand()` as seen by the `match` in the CLI's
`main`: `none` (no subcommand), `some none` (`start` with no nested
subcommand), or `some (some .node)` (`start node`). -/
abbrev CliMatches := Option (Option StartSubcommand)

/-- How one invocation of the CLI's `main` terminates: normal completion, or
a panic via `unreachable!` with the given message. -/
inductive CliOutcome where
  | started
  | panicked (msg : String)
deriving DecidableEq, Repr

/-- The `match` at the end of `src/cli/src/main.rs` lines 16-24:
`start node` prints and returns; both `_` arms are
`unreachable!("Invariance violation detected")`. -/
def cli_main : CliMatches → CliOutcome
  | some (some StartSubcommand.node) => CliOutcome.started
  | some none => CliOutcome.panicked "Invariance violation detected"
  | none => CliOutcome.panicked "Invariance violation detected"

/-! ## Helper lemmas -/

/-- Folding `TransactionPool::add` over a list of transactions appends them in
order. -/
theorem foldl_add_eq_append (txs : List Transaction) (p : Pool) :
    List.foldl TransactionPool.add p txs = p ++ txs := by
  induction txs generalizing p with
  | nil => simp
  | cons t ts ih => simp [TransactionPool.add, ih]

/-- A mining cycle with an empty pool leaves the whole state untouched. -/
theorem mine_cycle_pool_nil (s : NodeState) (h : s.pool = []) :
    mine_cycle s = s := by
  unfold mine_cycle
  simp [TransactionPool.has_pending_transactions, TransactionPool.get_transactions, h]

/-- A mining cycle with a non-empty pool appends one block built from the pool
snapshot and clears the pool. -/
theorem mine_cycle_pool_ne (s : NodeState) (h : s.pool ≠ []) :
    mine_cycle s =
      { blockchain := s.blockchain ++
          [Block.new (Blockchain.get_last_mined_block_number s.blockchain)
            (TransactionPool.get_transactions s.pool)]
        pool := [] } := by
  unfold mine_cycle
  rw [if_pos]
  · rfl
  · simp [TransactionPool.has_pending_transactions, TransactionPool.get_transactions,
      List.length_pos, h]

/-- Handling a local line never touches the blockchain. -/
theorem handle_local_line_blockchain (line : String) (pub_result : PublishResult)
    (s : NodeState) :
    (handle_local_line line pub_result s).1.blockchain = s.blockchain := by
  unfold handle_local_line
  split
  · rfl
  · split <;> rfl

/-- Handling a network message never touches the blockchain. -/
theorem handle_network_message_blockchain (data : String) (s : NodeState) :
    (handle_network_message data s).1.blockchain = s.blockchain := by
  unfold handle_network_message
  split <;> rfl

/-- Handling a local line either leaves the pool alone or appends exactly
`Transaction.new`. -/
theorem handle_local_line_pool (line : String) (pub_result : PublishResult)
    (s : NodeState) :
    (handle_local_line line pub_result s).1.pool = s.pool ∨
    (handle_local_line line pub_result s).1.pool = s.pool ++ [Transaction.new] := by
  unfold handle_local_line
  split
  · exact Or.inr rfl
  · split <;> exact Or.inl rfl

/-- Handling a network message either leaves the pool alone or appends exactly
`Transaction.new`. -/
theorem handle_network_message_pool (data : String) (s : NodeState) :
    (handle_network_message data s).1.pool = s.pool ∨
    (handle_network_message data s).1.pool = s.pool ++ [Transaction.new] := by
  unfold handle_network_message
  split
  · exact Or.inr rfl
  · exact Or.inl rfl

/-- Computation of the network `ADD_TRANSACTION` handling. -/
theorem handle_network_add (s : NodeState) :
    (handle_network_message "ADD_TRANSACTION" s).1 =
      { s with pool := TransactionPool.add s.pool Transaction.new } := rfl

/-- If the ledger's block numbers are `(i + 1) % 2^64` in position `i`, the
next block gets number `(length + 1) % 2^64`, whatever its transactions. -/
theorem next_block_number_mod (bc : Ledger) (txs : List Transaction)
    (h : block_numbers bc =
      (List.range bc.length).map (fun i => (i + 1) % u64Mod)) :
    (Block.new (Blockchain.get_last_mined_block_number bc) txs).number =
      (bc.length + 1) % u64Mod := by
  rcases List.eq_nil_or_concat bc with rfl | ⟨l, a, rfl⟩
  · rfl
  · simp only [List.concat_eq_append] at h ⊢
    have hlast : a.number = (l.length + 1) % u64Mod := by
      have h1 := congrArg List.getLast? h
      rw [block_numbers, List.map_append, List.map_singleton,
        List.getLast?_concat, List.length_append, List.length_singleton,
        List.range_succ, List.map_append, List.map_singleton,
        List.getLast?_concat] at h1
      exact Option.some_injective _ h1
    have hnum : Blockchain.get_last_mined_block_number (l ++ [a]) = some a.number := by
      rw [Blockchain.get_last_mined_block_number, Blockchain.get_last_mined_block,
        List.getLast?_concat]
      rfl
    rw [Block.new, hnum]
    simp only [Option.some_bind, Option.getD_some, hlast]
    rw [Nat.mod_add_mod, List.length_append, List.length_singleton]

/-- Core ledger invariant: in every reachable state the block in position `i`
carries number `(i + 1) % 2^64`. -/
theorem reach_block_numbers_mod (s : NodeState) (h : Reach s) :
    block_numbers s.blockchain =
      (List.range s.blockchain.length).map (fun i => (i + 1) % u64Mod) := by
  induction h with
  | init => rfl
  | local_cmd line pub_result s0 _ ih =>
      rw [handle_local_line_blockchain]
      exact ih
  | network_cmd data s0 _ ih =>
      rw [handle_network_message_blockchain]
      exact ih
  | miner_tick s0 _ ih =>
      by_cases hp : s0.pool = []
      · rw [mine_cycle_pool_nil s0 hp]
        exact ih
      · rw [mine_cycle_pool_ne s0 hp]
        have hnum := next_block_number_mod s0.blockchain
          (TransactionPool.get_transactions s0.pool) ih
        rw [block_numbers, List.map_append, List.map_singleton, hnum,
          List.length_append, List.length_singleton, List.range_succ,
          List.map_append, List.map_singleton]
        rw [block_numbers] at ih
        rw [ih]

/-- Every transaction sitting in the pool or inside a ledger block of a
reachable state is the fixed placeholder `Transaction.new`. -/
theorem reach_transactions_fixed (s : NodeState) (h : Reach s) :
    (∀ tx ∈ s.pool, tx = Transaction.new) ∧
    (∀ b ∈ s.blockchain, ∀ tx ∈ b.transactions, tx = Transaction.new) := by
  induction h with
  | init => exact ⟨by simp [NodeState.init], by simp [NodeState.init]⟩
  | local_cmd line pub_result s0 _ ih =>
      refine ⟨?_, by rw [handle_local_line_blockchain]; exact ih.2⟩
      intro tx htx
      rcases handle_local_line_pool line pub_result s0 with hp | hp
      · exact ih.1 tx (hp ▸ htx)
      · rw [hp] at htx
        rcases List.mem_append.mp htx with hmem | hmem
        · exact ih.1 tx hmem
        · simpa using hmem
  | network_cmd data s0 _ ih =>
      refine ⟨?_, by rw [handle_network_message_blockchain]; exact ih.2⟩
      intro tx htx
      rcases handle_network_message_pool data s0 with hp | hp
      · exact ih.1 tx (hp ▸ htx)
      · rw [hp] at htx
        rcases List.mem_append.mp htx with hmem | hmem
        · exact ih.1 tx hmem
        · simpa using hmem
  | miner_tick s0 _ ih =>
      by_cases hp : s0.pool = []
      · rw [mine_cycle_pool_nil s0 hp]
        exact ih
      · rw [mine_cycle_pool_ne s0 hp]
        refine ⟨by simp, ?_⟩
        intro b hb
        rcases List.mem_append.mp hb with hmem | hmem
        · exact ih.2 b hmem
        · have hb' : b = Block.new
              (Blockchain.get_last_mined_block_number s0.blockchain)
              (TransactionPool.get_transactions s0.pool) := by simpa using hmem
          subst hb'
          intro tx htx
          exact ih.1 tx (by simpa [Block.new, TransactionPool.get_transactions] using htx)

/-- One add-then-drain round from a state with an empty pool: one block holding
exactly the one added transaction is appended, and the pool ends empty. -/
theorem add_then_mine_spec (s : NodeState) (h : s.pool = []) :
    add_then_mine s =
      { blockchain := s.blockchain ++
          [Block.new (Blockchain.get_last_mined_block_number s.blockchain)
            [Transaction.new]]
        pool := [] } := by
  unfold add_then_mine
  rw [handle_network_add]
  rw [mine_cycle_pool_ne _ (by simp [TransactionPool.add])]
  simp [TransactionPool.add, TransactionPool.get_transactions, h]

/-- After `k` add-then-drain rounds the pool is empty and the ledger holds `k`
blocks. -/
theorem drain_cycles_pool_length (k : Nat) :
    (drain_cycles k).pool = [] ∧ (drain_cycles k).blockchain.length = k := by
  induction k with
  | zero => exact ⟨rfl, rfl⟩
  | succ k ih =>
      rw [drain_cycles, add_then_mine_spec _ ih.1]
      simp [ih.2]

/-- Every `drain_cycles` state is reachable. -/
theorem reach_drain_cycles (k : Nat) : Reach (drain_cycles k) := by
  induction k with
  | zero => exact Reach.init
  | succ k ih =>
      exact Reach.miner_tick _ (Reach.network_cmd "ADD_TRANSACTION" _ ih)

/-! ## Claim theorems -/

/-- Claim C1: for every sequence of pool `add` operations followed by one
miner drain cycle in which the pool is non-empty at the tick, the newly
appended Block contains exactly the transactions returned by the pool
snapshot (`get_transactions`) taken in that cycle, in order, and the pool is
empty immediately after the cycle completes. -/
theorem drain_commits_snapshot (bc : Ledger) (txs : List Transaction)
    (h : txs ≠ []) :
    TransactionPool.get_transactions (List.foldl TransactionPool.add [] txs) = txs ∧
    mine_cycle { blockchain := bc, pool := List.foldl TransactionPool.add [] txs } =
      { blockchain := bc ++
          [Block.new (Blockchain.get_last_mined_block_number bc)
            (TransactionPool.get_transactions (List.foldl TransactionPool.add [] txs))]
        pool := [] } ∧
    (Block.new (Blockchain.get_last_mined_block_number bc)
      (TransactionPool.get_transactions
        (List.foldl TransactionPool.add [] txs))).transactions = txs := by
  have hp : List.foldl TransactionPool.add ([] : Pool) txs = txs := by
    simpa using foldl_add_eq_append txs []
  have hne : List.foldl TransactionPool.add ([] : Pool) txs ≠ [] := by
    rw [hp]
    exact h
  refine ⟨by rw [hp]; rfl, ?_, by rw [hp]; rfl⟩
  rw [mine_cycle_pool_ne _ hne]

/-- Witness for C1 at the spec's concrete scenario: two transactions added to
an empty pool, empty ledger — the drained block is the genesis block holding
both, in order, and the pool ends empty. -/
theorem drain_commits_snapshot_witness :
    mine_cycle
      { blockchain := [],
        pool := List.foldl TransactionPool.add [] [Transaction.new, Transaction.new] } =
      { blockchain :=
          [{ number := 1, transactions := [Transaction.new, Transaction.new] }]
        pool := [] } := by
  have h := drain_commits_snapshot [] [Transaction.new, Transaction.new] (by decide)
  rw [h.2.1]
  decide

/-- Claim C2 (amended): in every reachable state whose ledger holds fewer than
`2 ^ 64` blocks, the block numbers are exactly `1, 2, ..., length` — a
strictly increasing sequence with no gaps starting at the genesis number 1.
(The bound is forced by `u64` wraparound, see
`block_numbers_wrap_counterexample`.) -/
theorem block_numbers_sequential_of_reach (s : NodeState) (h : Reach s)
    (hlen : s.blockchain.length < u64Mod) :
    numbers_sequential s.blockchain := by
  rw [numbers_sequential, reach_block_numbers_mod s h]
  refine List.map_congr_left ?_
  intro i hi
  rw [List.mem_range] at hi
  exact Nat.mod_eq_of_lt (by omega)

/-- Witness for the amended C2: the state after one add-then-drain round from
startup. -/
theorem block_numbers_sequential_of_reach_witness :
    numbers_sequential (mine_cycle
      (handle_network_message "ADD_TRANSACTION" NodeState.init).1).blockchain :=
  block_numbers_sequential_of_reach _
    (Reach.miner_tick _ (Reach.network_cmd "ADD_TRANSACTION" _ Reach.init))
    (by decide)

/-- Counterexample to C2 as stated: the state after `2 ^ 64` add-then-drain
rounds is reachable, yet its block numbers are not the gapless strictly
increasing sequence `1, 2, ...` — at the `2 ^ 64`-th block the `u64` successor
of the previous number `2 ^ 64 - 1` wraps around to `0`. -/
theorem block_numbers_wrap_counterexample :
    Reach (drain_cycles u64Mod) ∧
    ¬ numbers_sequential (drain_cycles u64Mod).blockchain := by
  refine ⟨reach_drain_cycles u64Mod, ?_⟩
  intro hseq
  have hmod := reach_block_numbers_mod _ (reach_drain_cycles u64Mod)
  rw [numbers_sequential] at hseq
  have heq := hseq.symm.trans hmod
  rw [(drain_cycles_pool_length u64Mod).2] at heq
  have h64 : u64Mod = (u64Mod - 1) + 1 := by
    have hpos : 0 < u64Mod := by norm_num [u64Mod]
    omega
  rw [h64, List.range_succ, List.map_append, List.map_append,
    List.map_singleton, List.map_singleton] at heq
  have hlast := congrArg List.getLast? heq
  rw [List.getLast?_concat, List.getLast?_concat] at hlast
  have hzero : (u64Mod - 1) + 1 = ((u64Mod - 1) + 1) % u64Mod :=
    Option.some_injective _ hlast
  rw [← h64, Nat.mod_self] at hzero
  exact absurd hzero (by norm_num [u64Mod])

/-- Claim C3: at a miner tick where `has_pending_transactions` is false, no
Block is constructed or appended — the whole node state, and in particular
the ledger's sequence of blocks, is unchanged by that cycle, so no genesis
block exists before the first transaction is added. -/
theorem empty_pool_cycle_no_block (s : NodeState)
    (h : TransactionPool.has_pending_transactions s.pool = false) :
    mine_cycle s = s ∧ (mine_cycle s).blockchain = s.blockchain := by
  have hp : s.pool = [] := by
    simpa [TransactionPool.has_pending_transactions,
      TransactionPool.get_transactions] using h
  exact ⟨mine_cycle_pool_nil s hp, by rw [mine_cycle_pool_nil s hp]⟩

/-- Witness for C3 at the startup state: a tick before any transaction is
added leaves the ledger empty. -/
theorem empty_pool_cycle_no_block_witness :
    mine_cycle NodeState.init = NodeState.init ∧
    (mine_cycle NodeState.init).blockchain = NodeState.init.blockchain :=
  empty_pool_cycle_no_block NodeState.init (by decide)

/-- Claim C4: a local `ADD_TRANSACTION` performs exactly one pool append and
at most one publish attempt; a network-sourced `ADD_TRANSACTION` performs
exactly one pool append and zero publish attempts (no re-broadcast). -/
theorem add_transaction_effect_counts (s : NodeState) (pub_result : PublishResult) :
    (handle_local_line "ADD_TRANSACTION" pub_result s).1.pool
      = TransactionPool.add s.pool Transaction.new ∧
    (handle_local_line "ADD_TRANSACTION" pub_result s).2.pool_appends = 1 ∧
    (handle_local_line "ADD_TRANSACTION" pub_result s).2.publish_attempts ≤ 1 ∧
    (handle_network_message "ADD_TRANSACTION" s).1.pool
      = TransactionPool.add s.pool Transaction.new ∧
    (handle_network_message "ADD_TRANSACTION" s).2.pool_appends = 1 ∧
    (handle_network_message "ADD_TRANSACTION" s).2.publish_attempts = 0 :=
  ⟨rfl, rfl, Nat.le_refl 1, rfl, rfl, rfl⟩

/-- Claim C5: for a local `ADD_TRANSACTION`, a publish failure is logged as a
warning and the pool mutation is not rolled back — the node state after the
command is the same whether the publish succeeded or failed, namely the pool
with the transaction appended. -/
theorem publish_failure_not_rolled_back (s : NodeState) (e : String) (id : Nat) :
    (handle_local_line "ADD_TRANSACTION" (Except.error e) s).1 =
      (handle_local_line "ADD_TRANSACTION" (Except.ok id) s).1 ∧
    (handle_local_line "ADD_TRANSACTION" (Except.error e) s).1.pool =
      TransactionPool.add s.pool Transaction.new ∧
    (handle_local_line "ADD_TRANSACTION" (Except.error e) s).2.publish_warning = true ∧
    (handle_local_line "ADD_TRANSACTION" (Except.ok id) s).2.publish_warning = false :=
  ⟨rfl, rfl, rfl, rfl⟩

/-- Claim C6: handling a local `FETCH_BLOCKCHAIN` mutates neither the
transaction pool nor the ledger and performs no publish. -/
theorem fetch_blockchain_frame (s : NodeState) (pub_result : PublishResult) :
    (handle_local_line "FETCH_BLOCKCHAIN" pub_result s).1 = s ∧
    (handle_local_line "FETCH_BLOCKCHAIN" pub_result s).1.pool = s.pool ∧
    (handle_local_line "FETCH_BLOCKCHAIN" pub_result s).1.blockchain = s.blockchain ∧
    (handle_local_line "FETCH_BLOCKCHAIN" pub_result s).2.publish_attempts = 0 ∧
    (handle_local_line "FETCH_BLOCKCHAIN" pub_result s).2.pool_appends = 0 :=
  ⟨rfl, rfl, rfl, rfl, rfl⟩

/-- Claim C7: any command text other than the exact strings `ADD_TRANSACTION`
and `FETCH_BLOCKCHAIN` from the local source, and any text other than
`ADD_TRANSACTION` from the network (in particular `FETCH_BLOCKCHAIN`, which
the network side does not recognize), produces an invalid-command diagnostic
and changes neither the pool nor the ledger. -/
theorem invalid_command_no_state_change (s : NodeState) (line data : String)
    (pub_result : PublishResult)
    (h1 : line ≠ "ADD_TRANSACTION") (h2 : line ≠ "FETCH_BLOCKCHAIN")
    (h3 : data ≠ "ADD_TRANSACTION") :
    (handle_local_line line pub_result s).1 = s ∧
    (handle_local_line line pub_result s).2.invalid_diagnostic = true ∧
    (handle_network_message data s).1 = s ∧
    (handle_network_message data s).2.invalid_diagnostic = true := by
  unfold handle_local_line handle_network_message
  rw [if_neg h1, if_neg h2, if_neg h3]
  exact ⟨rfl, rfl, rfl, rfl⟩

/-- Witness for C7: the unknown local command `"foo"` and the network-origin
`"FETCH_BLOCKCHAIN"` both leave the startup state unchanged and raise the
diagnostic. -/
theorem invalid_command_no_state_change_witness :
    (handle_local_line "foo" (Except.ok 0) NodeState.init).1 = NodeState.init ∧
    (handle_local_line "foo" (Except.ok 0) NodeState.init).2.invalid_diagnostic = true ∧
    (handle_network_message "FETCH_BLOCKCHAIN" NodeState.init).1 = NodeState.init ∧
    (handle_network_message "FETCH_BLOCKCHAIN" NodeState.init).2.invalid_diagnostic
      = true :=
  invalid_command_no_state_change NodeState.init "foo" "FETCH_BLOCKCHAIN"
    (Except.ok 0) (by decide) (by decide) (by decide)

/-- Claim C8: for every pool state, in the step sequence
snapshot := `get_transactions()`, then `add(tx)`, then `clear()`, a
transaction `tx` not already pooled is in neither the snapshot (hence in no
block built from that snapshot) nor the pool after the clear — `clear`
discards what is present at the instant of the call, not what the earlier
snapshot read, so such a transaction is silently dropped. -/
theorem add_between_snapshot_and_clear_dropped (p : Pool) (tx : Transaction) :
    (tx ∉ p → tx ∉ TransactionPool.get_transactions p) ∧
    (∀ n, tx ∉ p →
      tx ∉ (Block.new n (TransactionPool.get_transactions p)).transactions) ∧
    TransactionPool.clear (TransactionPool.add p tx) = [] ∧
    tx ∉ TransactionPool.clear (TransactionPool.add p tx) := by
  refine ⟨fun h => h, fun n h => ?_, rfl, by simp [TransactionPool.clear]⟩
  simpa [Block.new, TransactionPool.get_transactions] using h

/-- Witness for C8 at the empty pool and `tx = Transaction.new`. -/
theorem add_between_snapshot_and_clear_dropped_witness :
    Transaction.new ∉ TransactionPool.get_transactions ([] : Pool) ∧
    TransactionPool.clear (TransactionPool.add [] Transaction.new) = [] ∧
    Transaction.new ∉ TransactionPool.clear (TransactionPool.add [] Transaction.new) := by
  have h := add_between_snapshot_and_clear_dropped [] Transaction.new
  exact ⟨h.1 (by simp), h.2.2.1, h.2.2.2⟩

/-- Claim C9: `Transaction::new` is the constant
`{ from := 0x000, to := 0x123 }` — it takes no input and does not depend on
the command source — and consequently every transaction in the pool or inside
any ledger block of any reachable state has exactly the field values
`from = 0x000` and `to = 0x123`. -/
theorem transactions_all_placeholder :
    Transaction.new = { «from» := 0x000, «to» := 0x123 } ∧
    ∀ s : NodeState, Reach s → ∀ tx : Transaction,
      (tx ∈ s.pool ∨ ∃ b ∈ s.blockchain, tx ∈ b.transactions) →
      tx.«from» = 0x000 ∧ tx.«to» = 0x123 := by
  refine ⟨rfl, ?_⟩
  intro s hs tx htx
  have hfix := reach_transactions_fixed s hs
  rcases htx with hp | ⟨b, hb, hbtx⟩
  · rw [hfix.1 tx hp]
    exact ⟨rfl, rfl⟩
  · rw [hfix.2 b hb tx hbtx]
    exact ⟨rfl, rfl⟩

/-- Witness for C9: the transaction added by one local `ADD_TRANSACTION` from
startup carries the placeholder endpoints. -/
theorem transactions_all_placeholder_witness :
    Transaction.new.«from» = 0x000 ∧ Transaction.new.«to» = 0x123 :=
  transactions_all_placeholder.2
    (handle_local_line "ADD_TRANSACTION" (Except.ok 0) NodeState.init).1
    (Reach.local_cmd "ADD_TRANSACTION" (Except.ok 0) NodeState.init Reach.init)
    Transaction.new (Or.inl (by decide))

/-- Claim C10: the CLI entry point panics via `unreachable!` for every parsed
invocation other than the exact subcommand chain `start node` — no
subcommand, or `start` with no nested subcommand, both panic with
`"Invariance violation detected"`; only `start node` completes normally. -/
theorem cli_requires_start_node :
    cli_main none = CliOutcome.panicked "Invariance violation detected" ∧
    cli_main (some none) = CliOutcome.panicked "Invariance violation detected" ∧
    cli_main (some (some StartSubcommand.node)) = CliOutcome.started ∧
    ∀ m : CliMatches, cli_main m = CliOutcome.started ↔
      m = some (some StartSubcommand.node) := by
  refine ⟨rfl, rfl, rfl, ?_⟩
  intro m
  rcases m with _ | m
  · simp [cli_main]
  · rcases m with _ | t
    · simp [cli_main]
    · cases t
      simp [cli_main]
